import Mathlib

/-!
Shallow embedding of the fintrack portfolio accounting engine.

Sources:
* `src/services/storageService.ts` — `storage.getTransactions` and
  `storage.getHoldings` (the ledger replay / holdings projection).
* `src/App.tsx` (second variant, lines 742–787) — `calculatePeriodProfit`,
  the windowed realized-profit calculator.

Numeric values (JS numbers) are modelled as rationals `ℚ`, so the
arithmetic identities hold exactly.  Dates are modelled as integers
(the epoch-millisecond value `new Date(tx.date).getTime()` that the
code compares).  The JS `Array.prototype.sort` is stable (ES2019), so
it is modelled by `List.insertionSort`, which is a stable sort.

The JS object `holdings` (a string-keyed record whose values are read
off with `Object.values` in insertion order) is modelled as a list of
`Holding` keyed by the `symbol` field: a new key is appended at the
end, an existing key is updated in place.  `storage.getHoldings` keeps
`realizedPnL` in a second record `realizedPnL` with exactly the same
keys (both are created together at first sight of a symbol) and merges
them in the final `.map`; the model keeps the field inline in
`Holding`, which is the same data.
-/

namespace Fintrack

/-- `type` field of a transaction: `'BUY' | 'SELL'` (`src/types.ts`). -/
inductive TxType where
  | BUY
  | SELL
deriving DecidableEq, Repr

/-- A row of the transaction ledger (`Transaction` in `src/types.ts`).
`date` is the epoch timestamp `new Date(t.date).getTime()`. -/
structure Transaction where
  id : Int
  account_id : Int
  symbol : String
  type : TxType
  quantity : ℚ
  price : ℚ
  date : Int
deriving DecidableEq, Repr

/-- Per-symbol holding state (`Holding` in `src/types.ts`), with the
`realizedPnL` record of `storage.getHoldings` kept inline. -/
structure Holding where
  symbol : String
  quantity : ℚ
  totalCost : ℚ
  avgPrice : ℚ
  realizedPnL : ℚ
deriving DecidableEq, Repr

/-- Comparator `(a, b) => new Date(a.date).getTime() - new Date(b.date).getTime()`
(ascending by date). -/
def dateLe (a b : Transaction) : Prop := a.date ≤ b.date

/-- Comparator `(a, b) => new Date(b.date).getTime() - new Date(a.date).getTime()`
(descending by date), used by `storage.getTransactions`. -/
def dateGe (a b : Transaction) : Prop := b.date ≤ a.date

instance : DecidableRel dateLe := fun a b => inferInstanceAs (Decidable (a.date ≤ b.date))
instance : DecidableRel dateGe := fun a b => inferInstanceAs (Decidable (b.date ≤ a.date))

instance : IsTotal Transaction dateLe := ⟨fun a b => Int.le_total a.date b.date⟩
instance : IsTrans Transaction dateLe := ⟨fun _ _ _ hab hbc => le_trans hab hbc⟩
instance : IsTotal Transaction dateGe := ⟨fun a b => Int.le_total b.date a.date⟩
instance : IsTrans Transaction dateGe := ⟨fun _ _ _ hab hbc => le_trans hbc hab⟩

/-- `storage.getTransactions`: filter the store to one account and sort
by date descending (stable). -/
def getTransactions (accountId : Int) (all : List Transaction) : List Transaction :=
  (all.filter (fun t => decide (t.account_id = accountId))).insertionSort dateGe

/-- The fresh holding record `{ symbol: tx.symbol, quantity: 0, totalCost: 0,
avgPrice: 0, realizedPnL: 0 }` created for an unseen symbol. -/
def initHolding (sym : String) : Holding :=
  { symbol := sym, quantity := 0, totalCost := 0, avgPrice := 0, realizedPnL := 0 }

/-- One transaction applied to one symbol's state: the body of the
`sorted.forEach` loop of `storage.getHoldings` (lines 80–96). -/
def applyTx (h : Holding) (tx : Transaction) : Holding :=
  match tx.type with
  | .BUY =>
      let quantity := h.quantity + tx.quantity
      let totalCost := h.totalCost + tx.quantity * tx.price
      { h with quantity := quantity, totalCost := totalCost,
               avgPrice := if 0 < quantity then totalCost / quantity else 0 }
  | .SELL =>
      let sellValue := tx.quantity * tx.price
      let costOfSold := tx.quantity * h.avgPrice
      let realizedPnL := h.realizedPnL + (sellValue - costOfSold)
      let quantity := h.quantity - tx.quantity
      let totalCost := h.totalCost - costOfSold
      if quantity ≤ 0 then
        { h with realizedPnL := realizedPnL, quantity := quantity,
                 totalCost := 0, avgPrice := 0 }
      else
        { h with realizedPnL := realizedPnL, quantity := quantity,
                 totalCost := totalCost }

/-- One step of the `holdings` record update: create the entry for
`tx.symbol` if absent (appended, as JS objects keep insertion order),
then apply the transaction to it. -/
def updateHoldings (m : List Holding) (tx : Transaction) : List Holding :=
  match m with
  | [] => [applyTx (initHolding tx.symbol) tx]
  | h :: rest =>
      if h.symbol = tx.symbol then applyTx h tx :: rest
      else h :: updateHoldings rest tx

/-- Value of `holdings[s]` in the model, with the just-initialized record
as the default for an absent key. -/
def lookupHolding (m : List Holding) (s : String) : Holding :=
  match m with
  | [] => initHolding s
  | h :: rest => if h.symbol = s then h else lookupHolding rest s

/-- The chronologically re-sorted ledger folded by `storage.getHoldings`
(line 72): ascending stable sort of the account's transactions. -/
def sortedLedger (accountId : Int) (all : List Transaction) : List Transaction :=
  (getTransactions accountId all).insertionSort dateLe

/-- The `sorted.forEach` fold of `storage.getHoldings` over an explicit
transaction list. -/
def replayStates (txs : List Transaction) : List Holding :=
  txs.foldl updateHoldings []

/-- `storage.getHoldings` (lines 66–105): replay the account's ledger in
date order, then keep the rows with an open position or nonzero realized
P&L. -/
def getHoldings (accountId : Int) (all : List Transaction) : List Holding :=
  (replayStates (sortedLedger accountId all)).filter
    (fun h => decide (0 < h.quantity) || decide (h.realizedPnL ≠ 0))

/-- State of the sorted-prefix replay after the first `n` transactions of
the account's sorted ledger, for one symbol ("immediately after processing"
the `n`-th transaction). -/
def replayPrefixState (accountId : Int) (all : List Transaction) (n : ℕ)
    (s : String) : Holding :=
  lookupHolding (((sortedLedger accountId all).take n).foldl updateHoldings []) s

/-! ### `calculatePeriodProfit` (App.tsx, lines 742–787)

The source computes `cutoff` from the wall clock by JS calendar-month
arithmetic (`cutoff.setMonth(now.getMonth() - months)`); the model takes
the resulting cutoff timestamp as a parameter. -/

/-- An entry of the `tempHoldings` record:
`{ quantity, totalCost, avgPrice }`. -/
structure TempHolding where
  quantity : ℚ
  totalCost : ℚ
  avgPrice : ℚ
deriving DecidableEq, Repr

/-- The fresh `{ quantity: 0, totalCost: 0, avgPrice: 0 }` entry. -/
def initTemp : TempHolding := { quantity := 0, totalCost := 0, avgPrice := 0 }

/-- One transaction applied to one `tempHoldings` entry (the state part
of the `sortedTxs.forEach` body, lines 764–783). -/
def applyTempTx (h : TempHolding) (tx : Transaction) : TempHolding :=
  match tx.type with
  | .BUY =>
      let quantity := h.quantity + tx.quantity
      let totalCost := h.totalCost + tx.quantity * tx.price
      { quantity := quantity, totalCost := totalCost,
        avgPrice := if 0 < quantity then totalCost / quantity else 0 }
  | .SELL =>
      let costOfSold := tx.quantity * h.avgPrice
      let quantity := h.quantity - tx.quantity
      let totalCost := h.totalCost - costOfSold
      if quantity ≤ 0 then
        { quantity := quantity, totalCost := 0, avgPrice := 0 }
      else
        { quantity := quantity, totalCost := totalCost, avgPrice := h.avgPrice }

/-- `tempHoldings[s]`, defaulting to the just-initialized entry. -/
def lookupTemp (m : List (String × TempHolding)) (s : String) : TempHolding :=
  match m with
  | [] => initTemp
  | (k, h) :: rest => if k = s then h else lookupTemp rest s

/-- Record update for `tempHoldings`: create if absent (appended), then
apply the transaction. -/
def updateTemp (m : List (String × TempHolding)) (tx : Transaction) :
    List (String × TempHolding) :=
  match m with
  | [] => [(tx.symbol, applyTempTx initTemp tx)]
  | (k, h) :: rest =>
      if k = tx.symbol then (k, applyTempTx h tx) :: rest
      else (k, h) :: updateTemp rest tx

/-- One iteration of the `sortedTxs.forEach` of `calculatePeriodProfit`:
on a SELL, the profit `tx.quantity * (tx.price - h.avgPrice)` is added to
the running total exactly when `new Date(tx.date) >= cutoff`. -/
def periodStep (cutoff : Int) (acc : ℚ × List (String × TempHolding))
    (tx : Transaction) : ℚ × List (String × TempHolding) :=
  let h := lookupTemp acc.2 tx.symbol
  match tx.type with
  | .BUY => (acc.1, updateTemp acc.2 tx)
  | .SELL =>
      let profit := tx.quantity * (tx.price - h.avgPrice)
      let totalProfit := if cutoff ≤ tx.date then acc.1 + profit else acc.1
      (totalProfit, updateTemp acc.2 tx)

/-- `calculatePeriodProfit` (lines 742–787), parametrized by the cutoff
timestamp: sort the supplied transactions chronologically, replay them
all, and return the accumulated in-window sale profit. -/
def calculatePeriodProfit (cutoff : Int) (transactions : List Transaction) : ℚ :=
  let sortedTxs := transactions.insertionSort dateLe
  (sortedTxs.foldl (periodStep cutoff) (0, [])).1

/-! ### Derived notions used by the statements -/

/-- The cost-basis invariant of a per-symbol state: `avgPrice * quantity =
totalCost` on an open position, and `avgPrice` is zeroed whenever the
position is closed or oversold. -/
def holdInv (h : Holding) : Prop :=
  (0 < h.quantity → h.avgPrice * h.quantity = h.totalCost)
    ∧ (h.quantity ≤ 0 → h.avgPrice = 0)

/-- The entry of the `tempHoldings` record corresponding to a `holdings`
record entry (same key, the three state fields, `realizedPnL` dropped). -/
def toTempEntry (h : Holding) : String × TempHolding :=
  (h.symbol, { quantity := h.quantity, totalCost := h.totalCost, avgPrice := h.avgPrice })

/-- Total realized P&L across a list of holding states. -/
def pnlSum (l : List Holding) : ℚ :=
  (l.map Holding.realizedPnL).sum

/-- The dated profit contribution of every SELL of a replay, using the
average price at the moment of the sale (cutoff-free). -/
def contribsFold : List (String × TempHolding) → List Transaction → List (Int × ℚ)
  | _, [] => []
  | m, tx :: rest =>
      match tx.type with
      | .BUY => contribsFold (updateTemp m tx) rest
      | .SELL =>
          (tx.date, tx.quantity * (tx.price - (lookupTemp m tx.symbol).avgPrice))
            :: contribsFold (updateTemp m tx) rest

/-- Modelled from the spec: the full chronologically sorted ledger is
replayed with a continuous per-symbol cost basis, and each sale
contributes `q * (p - avgPrice-at-that-moment)` tagged with its date.
This list does not depend on any cutoff. -/
def saleContributions (txs : List Transaction) : List (Int × ℚ) :=
  contribsFold [] (txs.insertionSort dateLe)

/-! ### Basic facts about the replay fold -/

theorem applyTx_buy (h : Holding) (tx : Transaction) (ht : tx.type = .BUY) :
    applyTx h tx =
      { h with quantity := h.quantity + tx.quantity,
               totalCost := h.totalCost + tx.quantity * tx.price,
               avgPrice := if 0 < h.quantity + tx.quantity then
                   (h.totalCost + tx.quantity * tx.price) / (h.quantity + tx.quantity)
                 else 0 } := by
  simp [applyTx, ht]

theorem applyTx_sell (h : Holding) (tx : Transaction) (ht : tx.type = .SELL) :
    applyTx h tx =
      if h.quantity - tx.quantity ≤ 0 then
        { h with realizedPnL := h.realizedPnL + (tx.quantity * tx.price - tx.quantity * h.avgPrice),
                 quantity := h.quantity - tx.quantity, totalCost := 0, avgPrice := 0 }
      else
        { h with realizedPnL := h.realizedPnL + (tx.quantity * tx.price - tx.quantity * h.avgPrice),
                 quantity := h.quantity - tx.quantity,
                 totalCost := h.totalCost - tx.quantity * h.avgPrice } := by
  simp [applyTx, ht]

theorem applyTx_symbol (h : Holding) (tx : Transaction) :
    (applyTx h tx).symbol = h.symbol := by
  cases ht : tx.type
  · rw [applyTx_buy h tx ht]
  · rw [applyTx_sell h tx ht]
    split <;> rfl

theorem lookupHolding_nil (s : String) : lookupHolding [] s = initHolding s := rfl

theorem lookupHolding_cons (h : Holding) (rest : List Holding) (s : String) :
    lookupHolding (h :: rest) s = if h.symbol = s then h else lookupHolding rest s := rfl

theorem lookupHolding_updateHoldings (m : List Holding) (tx : Transaction) (s : String) :
    lookupHolding (updateHoldings m tx) s =
      if tx.symbol = s then applyTx (lookupHolding m s) tx else lookupHolding m s := by
  induction m with
  | nil =>
      by_cases hs : tx.symbol = s
      · subst hs
        simp [updateHoldings, lookupHolding_cons, lookupHolding_nil, applyTx_symbol, initHolding]
      · simp [updateHoldings, lookupHolding_cons, lookupHolding_nil, applyTx_symbol, initHolding, hs]
  | cons h rest ih =>
      by_cases h1 : h.symbol = tx.symbol
      · by_cases hs : tx.symbol = s
        · subst hs
          simp [updateHoldings, h1, lookupHolding_cons, applyTx_symbol]
        · have h2 : ¬ h.symbol = s := fun hc => hs (h1 ▸ hc)
          simp [updateHoldings, h1, lookupHolding_cons, applyTx_symbol, hs, h2]
      · by_cases h2 : h.symbol = s
        · have hs : ¬ tx.symbol = s := fun hc => h1 (by rw [h2, hc])
          have hs' : ¬ s = tx.symbol := fun hc => hs hc.symm
          simp [updateHoldings, h1, lookupHolding_cons, h2, hs, hs']
        · simp [updateHoldings, h1, lookupHolding_cons, h2, ih]

theorem lookupHolding_foldl (l : List Transaction) (m : List Holding) (s : String) :
    lookupHolding (l.foldl updateHoldings m) s =
      (l.filter (fun t => decide (t.symbol = s))).foldl applyTx (lookupHolding m s) := by
  induction l generalizing m with
  | nil => rfl
  | cons t rest ih =>
      rw [List.foldl_cons, ih, lookupHolding_updateHoldings, List.filter_cons]
      by_cases hs : t.symbol = s
      · simp [hs]
      · simp [hs]

/-! ### The cost-basis invariant -/

theorem holdInv_initHolding (s : String) : holdInv (initHolding s) := by
  constructor <;> intro h <;> simp [initHolding] at h ⊢

theorem holdInv_applyTx (h : Holding) (tx : Transaction) (hq : 0 < tx.quantity)
    (hinv : holdInv h) : holdInv (applyTx h tx) := by
  obtain ⟨h1, h2⟩ := hinv
  cases ht : tx.type
  · rw [applyTx_buy h tx ht]
    constructor
    · intro hpos
      simp only at hpos ⊢
      rw [if_pos hpos]
      field_simp
    · intro hle
      simp only at hle ⊢
      rw [if_neg (not_lt.mpr hle)]
  · rw [applyTx_sell h tx ht]
    by_cases hle : h.quantity - tx.quantity ≤ 0
    · rw [if_pos hle]
      constructor
      · intro hpos
        simp only at hpos
        exact absurd hpos (not_lt.mpr hle)
      · intro _
        rfl
    · rw [if_neg hle]
      push_neg at hle
      constructor
      · intro _
        simp only
        have hq0 : 0 < h.quantity := lt_trans hle (by linarith)
        have := h1 hq0
        ring_nf
        ring_nf at this
        linarith [this]
      · intro hc
        simp only at hc
        exact absurd hc (not_le.mpr hle)

theorem holdInv_foldl (l : List Transaction) (h : Holding)
    (hq : ∀ t ∈ l, 0 < t.quantity) (hinv : holdInv h) :
    holdInv (l.foldl applyTx h) := by
  induction l generalizing h with
  | nil => exact hinv
  | cons t rest ih =>
      exact ih (applyTx h t)
        (fun t' ht' => hq t' (List.mem_cons_of_mem _ ht'))
        (holdInv_applyTx h t (hq t (List.mem_cons_self _ _)) hinv)

theorem mem_sortedLedger {t : Transaction} {a : Int} {all : List Transaction}
    (ht : t ∈ sortedLedger a all) : t ∈ all ∧ t.account_id = a := by
  unfold sortedLedger getTransactions at ht
  have h1 := (List.perm_insertionSort dateLe _).subset ht
  have h2 := (List.perm_insertionSort dateGe _).subset h1
  have h3 := List.mem_filter.mp h2
  exact ⟨h3.1, of_decide_eq_true h3.2⟩

theorem holdInv_replayPrefixState (a : Int) (all : List Transaction) (n : ℕ) (s : String)
    (hpos : ∀ t ∈ all, 0 < t.quantity) : holdInv (replayPrefixState a all n s) := by
  unfold replayPrefixState
  rw [lookupHolding_foldl]
  refine holdInv_foldl _ _ ?_ (holdInv_initHolding s)
  intro t htm
  have h1 := List.mem_of_mem_filter htm
  have h2 := List.take_subset n _ h1
  exact hpos t (mem_sortedLedger h2).1

theorem replayPrefixState_succ (a : Int) (all : List Transaction) (n : ℕ)
    (tx : Transaction) (hget : (sortedLedger a all)[n]? = some tx) (s : String) :
    replayPrefixState a all (n + 1) s =
      if tx.symbol = s then applyTx (replayPrefixState a all n s) tx
      else replayPrefixState a all n s := by
  unfold replayPrefixState
  rw [List.take_succ, hget, Option.toList_some, List.foldl_append, List.foldl_cons,
    List.foldl_nil]
  exact lookupHolding_updateHoldings _ _ _

/-! ### Stability of the date sorts -/

theorem filter_date_orderedInsert (r : Transaction → Transaction → Prop) [DecidableRel r]
    (hr : ∀ a b : Transaction, ¬ r a b → a.date ≠ b.date) (d : Int) (x : Transaction)
    (l : List Transaction) :
    (l.orderedInsert r x).filter (fun t => decide (t.date = d)) =
      (x :: l).filter (fun t => decide (t.date = d)) := by
  induction l with
  | nil => rfl
  | cons y t ih =>
      by_cases hxy : r x y
      · simp [List.orderedInsert, hxy]
      · have hne := hr x y hxy
        by_cases hyd : y.date = d
        · have hxd : x.date ≠ d := fun hxd => hne (hxd.trans hyd.symm)
          simp [List.orderedInsert, hxy, List.filter_cons, hyd, hxd] at ih ⊢
          exact ih
        · simp [List.orderedInsert, hxy, List.filter_cons, hyd] at ih ⊢
          exact ih

theorem filter_date_insertionSort (r : Transaction → Transaction → Prop) [DecidableRel r]
    (hr : ∀ a b : Transaction, ¬ r a b → a.date ≠ b.date) (d : Int)
    (l : List Transaction) :
    (l.insertionSort r).filter (fun t => decide (t.date = d)) =
      l.filter (fun t => decide (t.date = d)) := by
  induction l with
  | nil => rfl
  | cons x t ih =>
      rw [List.insertionSort, filter_date_orderedInsert r hr, List.filter_cons,
        List.filter_cons, ih]

theorem not_dateLe_date_ne (a b : Transaction) (h : ¬ dateLe a b) : a.date ≠ b.date :=
  ne_of_gt (not_le.mp h)

theorem not_dateGe_date_ne (a b : Transaction) (h : ¬ dateGe a b) : a.date ≠ b.date :=
  ne_of_lt (not_le.mp h)

/-! ### Correspondence between `tempHoldings` and the replay state -/

theorem applyTempTx_toTempEntry (h : Holding) (tx : Transaction) :
    applyTempTx (toTempEntry h).2 tx = (toTempEntry (applyTx h tx)).2 := by
  cases ht : tx.type
  · rw [applyTx_buy h tx ht]
    simp [applyTempTx, toTempEntry, ht]
  · rw [applyTx_sell h tx ht]
    by_cases hle : h.quantity - tx.quantity ≤ 0
    · rw [if_pos hle]
      simp [applyTempTx, toTempEntry, ht, hle]
    · rw [if_neg hle]
      simp [applyTempTx, toTempEntry, ht, hle]

theorem toTempEntry_pair (h : Holding) :
    toTempEntry h = (h.symbol, (toTempEntry h).2) := rfl

theorem lookupTemp_map (m : List Holding) (s : String) :
    lookupTemp (m.map toTempEntry) s = (toTempEntry (lookupHolding m s)).2 := by
  induction m with
  | nil => rfl
  | cons h rest ih =>
      by_cases hs : h.symbol = s
      · simp [lookupTemp, toTempEntry, lookupHolding_cons, hs]
      · simp [lookupTemp, toTempEntry, lookupHolding_cons, hs, ih]

theorem updateTemp_map (m : List Holding) (tx : Transaction) :
    updateTemp (m.map toTempEntry) tx = (updateHoldings m tx).map toTempEntry := by
  have hpair : ∀ g : Holding,
      (g.symbol, applyTempTx (toTempEntry g).2 tx) = toTempEntry (applyTx g tx) := by
    intro g
    rw [applyTempTx_toTempEntry, toTempEntry_pair (applyTx g tx), applyTx_symbol]
  induction m with
  | nil =>
      show [(tx.symbol, applyTempTx initTemp tx)]
        = [toTempEntry (applyTx (initHolding tx.symbol) tx)]
      rw [← hpair (initHolding tx.symbol)]
      rfl
  | cons h rest ih =>
      rw [List.map_cons, toTempEntry_pair h]
      rw [show updateHoldings (h :: rest) tx
          = (if h.symbol = tx.symbol then applyTx h tx :: rest
             else h :: updateHoldings rest tx) from rfl]
      rw [show updateTemp ((h.symbol, (toTempEntry h).2) :: rest.map toTempEntry) tx
          = (if h.symbol = tx.symbol
             then (h.symbol, applyTempTx (toTempEntry h).2 tx) :: rest.map toTempEntry
             else (h.symbol, (toTempEntry h).2) :: updateTemp (rest.map toTempEntry) tx)
          from rfl]
      by_cases hs : h.symbol = tx.symbol
      · rw [if_pos hs, if_pos hs, hpair h, List.map_cons]
      · rw [if_neg hs, if_neg hs, ih, List.map_cons, toTempEntry_pair h]

theorem realizedPnL_applyTx_buy (h : Holding) (tx : Transaction) (ht : tx.type = .BUY) :
    (applyTx h tx).realizedPnL = h.realizedPnL := by
  rw [applyTx_buy h tx ht]

theorem realizedPnL_applyTx_sell (h : Holding) (tx : Transaction) (ht : tx.type = .SELL) :
    (applyTx h tx).realizedPnL
      = h.realizedPnL + (tx.quantity * tx.price - tx.quantity * h.avgPrice) := by
  rw [applyTx_sell h tx ht]
  by_cases hle : h.quantity - tx.quantity ≤ 0
  · rw [if_pos hle]
  · rw [if_neg hle]

theorem pnlSum_nil : pnlSum [] = 0 := rfl

theorem pnlSum_cons (h : Holding) (l : List Holding) :
    pnlSum (h :: l) = h.realizedPnL + pnlSum l := by
  simp [pnlSum]

theorem pnlSum_updateHoldings (m : List Holding) (tx : Transaction) :
    pnlSum (updateHoldings m tx) =
      pnlSum m + ((applyTx (lookupHolding m tx.symbol) tx).realizedPnL
        - (lookupHolding m tx.symbol).realizedPnL) := by
  induction m with
  | nil =>
      simp [updateHoldings, pnlSum_cons, pnlSum_nil, lookupHolding_nil, initHolding]
  | cons h rest ih =>
      rw [show updateHoldings (h :: rest) tx
          = (if h.symbol = tx.symbol then applyTx h tx :: rest
             else h :: updateHoldings rest tx) from rfl, lookupHolding_cons]
      by_cases hs : h.symbol = tx.symbol
      · rw [if_pos hs, if_pos hs, pnlSum_cons, pnlSum_cons]
        ring
      · rw [if_neg hs, if_neg hs, pnlSum_cons, pnlSum_cons, ih]
        ring

theorem periodFold_fst_eq_pnlSum (cutoff : Int) (l : List Transaction)
    (hl : ∀ t ∈ l, cutoff ≤ t.date) (t0 : ℚ) (m : List Holding) :
    (l.foldl (periodStep cutoff) (t0, m.map toTempEntry)).1
      = t0 + (pnlSum (l.foldl updateHoldings m) - pnlSum m) := by
  induction l generalizing t0 m with
  | nil => simp
  | cons tx rest ih =>
      have hd : cutoff ≤ tx.date := hl tx (List.mem_cons_self _ _)
      have hrest : ∀ t ∈ rest, cutoff ≤ t.date :=
        fun t ht => hl t (List.mem_cons_of_mem _ ht)
      rw [List.foldl_cons, List.foldl_cons]
      cases ht : tx.type
      · have hstep : periodStep cutoff (t0, m.map toTempEntry) tx
            = (t0, (updateHoldings m tx).map toTempEntry) := by
          simp [periodStep, ht, updateTemp_map]
        rw [hstep, ih hrest, pnlSum_updateHoldings, realizedPnL_applyTx_buy _ _ ht]
        ring
      · have hstep : periodStep cutoff (t0, m.map toTempEntry) tx
            = (t0 + tx.quantity * (tx.price - (lookupHolding m tx.symbol).avgPrice),
               (updateHoldings m tx).map toTempEntry) := by
          simp [periodStep, ht, updateTemp_map, lookupTemp_map, toTempEntry, hd]
        rw [hstep, ih hrest, pnlSum_updateHoldings, realizedPnL_applyTx_sell _ _ ht]
        ring

theorem periodFold_eq_contribs (cutoff : Int) (l : List Transaction) (t0 : ℚ)
    (m : List (String × TempHolding)) :
    (l.foldl (periodStep cutoff) (t0, m)).1
      = t0 + (((contribsFold m l).filter (fun c => decide (cutoff ≤ c.1))).map
          Prod.snd).sum := by
  induction l generalizing t0 m with
  | nil => simp [contribsFold]
  | cons tx rest ih =>
      rw [List.foldl_cons]
      cases ht : tx.type
      · have hstep : periodStep cutoff (t0, m) tx = (t0, updateTemp m tx) := by
          simp [periodStep, ht]
        rw [hstep, ih, show contribsFold m (tx :: rest)
            = contribsFold (updateTemp m tx) rest by rw [contribsFold, ht]]
      · have hstep : periodStep cutoff (t0, m) tx
            = ((if cutoff ≤ tx.date
                then t0 + tx.quantity * (tx.price - (lookupTemp m tx.symbol).avgPrice)
                else t0), updateTemp m tx) := by
          simp [periodStep, ht]
        rw [hstep, ih, show contribsFold m (tx :: rest)
            = (tx.date, tx.quantity * (tx.price - (lookupTemp m tx.symbol).avgPrice))
              :: contribsFold (updateTemp m tx) rest by rw [contribsFold, ht],
          List.filter_cons]
        by_cases hc : cutoff ≤ tx.date
        · rw [if_pos hc, if_pos (by simpa using hc), List.map_cons, List.sum_cons]
          ring
        · rw [if_neg hc, if_neg (by simpa using hc)]

/-! ### Symbols present in the replay state -/

theorem lookupHolding_mem {m : List Holding} {s : String}
    (hc : ∃ h ∈ m, h.symbol = s) : lookupHolding m s ∈ m := by
  induction m with
  | nil => simp at hc
  | cons h rest ih =>
      by_cases hs : h.symbol = s
      · rw [lookupHolding_cons, if_pos hs]
        exact List.mem_cons_self _ _
      · rw [lookupHolding_cons, if_neg hs]
        refine List.mem_cons_of_mem _ (ih ?_)
        obtain ⟨g, hg, hgs⟩ := hc
        rcases List.mem_cons.mp hg with hgh | hgr
        · exact absurd (hgh ▸ hgs) hs
        · exact ⟨g, hgr, hgs⟩

theorem exists_symbol_updateHoldings_self (m : List Holding) (tx : Transaction) :
    ∃ h ∈ updateHoldings m tx, h.symbol = tx.symbol := by
  induction m with
  | nil =>
      exact ⟨applyTx (initHolding tx.symbol) tx, List.mem_cons_self _ _,
        by rw [applyTx_symbol]; rfl⟩
  | cons h rest ih =>
      rw [show updateHoldings (h :: rest) tx
          = (if h.symbol = tx.symbol then applyTx h tx :: rest
             else h :: updateHoldings rest tx) from rfl]
      by_cases hs : h.symbol = tx.symbol
      · rw [if_pos hs]
        exact ⟨applyTx h tx, List.mem_cons_self _ _, by rw [applyTx_symbol]; exact hs⟩
      · rw [if_neg hs]
        obtain ⟨g, hg, hgs⟩ := ih
        exact ⟨g, List.mem_cons_of_mem _ hg, hgs⟩

theorem exists_symbol_updateHoldings_mono (m : List Holding) (tx : Transaction)
    {s : String} (hc : ∃ h ∈ m, h.symbol = s) :
    ∃ h ∈ updateHoldings m tx, h.symbol = s := by
  induction m with
  | nil => simp at hc
  | cons h rest ih =>
      rw [show updateHoldings (h :: rest) tx
          = (if h.symbol = tx.symbol then applyTx h tx :: rest
             else h :: updateHoldings rest tx) from rfl]
      obtain ⟨g, hg, hgs⟩ := hc
      by_cases hs : h.symbol = tx.symbol
      · rw [if_pos hs]
        rcases List.mem_cons.mp hg with hgh | hgr
        · exact ⟨applyTx h tx, List.mem_cons_self _ _,
            by rw [applyTx_symbol]; exact hgh ▸ hgs⟩
        · exact ⟨g, List.mem_cons_of_mem _ hgr, hgs⟩
      · rw [if_neg hs]
        rcases List.mem_cons.mp hg with hgh | hgr
        · exact ⟨h, List.mem_cons_self _ _, hgh ▸ hgs⟩
        · obtain ⟨g', hg', hgs'⟩ := ih ⟨g, hgr, hgs⟩
          exact ⟨g', List.mem_cons_of_mem _ hg', hgs'⟩

theorem exists_symbol_foldl (l : List Transaction) (m : List Holding) {s : String}
    (hc : (∃ h ∈ m, h.symbol = s) ∨ ∃ t ∈ l, t.symbol = s) :
    ∃ h ∈ l.foldl updateHoldings m, h.symbol = s := by
  induction l generalizing m with
  | nil =>
      rcases hc with hm | ⟨t, ht, _⟩
      · exact hm
      · simp at ht
  | cons tx rest ih =>
      rw [List.foldl_cons]
      rcases hc with hm | ⟨t, ht, hts⟩
      · exact ih _ (Or.inl (exists_symbol_updateHoldings_mono m tx hm))
      · rcases List.mem_cons.mp ht with hth | htr
        · refine ih _ (Or.inl ?_)
          rw [← hts, hth]
          exact exists_symbol_updateHoldings_self m tx
        · exact ih _ (Or.inr ⟨t, htr, hts⟩)

theorem pnlSum_filter (l : List Holding) :
    pnlSum (l.filter (fun h => decide (0 < h.quantity) || decide (h.realizedPnL ≠ 0)))
      = pnlSum l := by
  induction l with
  | nil => rfl
  | cons h rest ih =>
      rw [List.filter_cons]
      by_cases hp : (decide (0 < h.quantity) || decide (h.realizedPnL ≠ 0)) = true
      · rw [if_pos hp, pnlSum_cons, pnlSum_cons, ih]
      · rw [if_neg hp, pnlSum_cons, ih]
        have : ¬ h.realizedPnL ≠ 0 := by
          intro hc
          exact hp (by simp [hc])
        rw [not_not.mp this]
        ring

/-! ### The claims -/

/-- C2: for every ledger of positive-quantity transactions, immediately
after the replay has processed any number `n` of transactions of the
sorted ledger, every symbol state with `quantity > 0` satisfies
`avgPrice * quantity = totalCost` (exactly, in rational arithmetic). -/
theorem claim_C2_cost_basis_invariant (a : Int) (all : List Transaction) (n : ℕ)
    (s : String) (hpos : ∀ t ∈ all, 0 < t.quantity)
    (hq : 0 < (replayPrefixState a all n s).quantity) :
    (replayPrefixState a all n s).avgPrice * (replayPrefixState a all n s).quantity
      = (replayPrefixState a all n s).totalCost :=
  (holdInv_replayPrefixState a all n s hpos).1 hq

/-- Witness for C2 at the concrete ledger `[BUY 10 @ 100]`. -/
theorem claim_C2_witness :
    (∀ t ∈ [(⟨1, 1, "A", .BUY, 10, 100, 0⟩ : Transaction)], 0 < t.quantity)
    ∧ 0 < (replayPrefixState 1 [(⟨1, 1, "A", .BUY, 10, 100, 0⟩ : Transaction)] 1 "A").quantity
    ∧ (replayPrefixState 1 [(⟨1, 1, "A", .BUY, 10, 100, 0⟩ : Transaction)] 1 "A").avgPrice
        * (replayPrefixState 1 [(⟨1, 1, "A", .BUY, 10, 100, 0⟩ : Transaction)] 1 "A").quantity
      = (replayPrefixState 1 [(⟨1, 1, "A", .BUY, 10, 100, 0⟩ : Transaction)] 1 "A").totalCost :=
  ⟨by norm_num, by norm_num [replayPrefixState, sortedLedger, getTransactions,
      List.insertionSort, List.orderedInsert, updateHoldings, lookupHolding, applyTx,
      initHolding, dateLe, dateGe],
    claim_C2_cost_basis_invariant 1 [⟨1, 1, "A", .BUY, 10, 100, 0⟩] 1 "A"
      (by norm_num)
      (by norm_num [replayPrefixState, sortedLedger, getTransactions, List.insertionSort,
        List.orderedInsert, updateHoldings, lookupHolding, applyTx, initHolding,
        dateLe, dateGe])⟩

/-- C3: the period-profit calculator equals the sum of the per-sale
contributions `q * (p - avgPrice-at-that-moment)` of the cutoff-free
full-ledger replay, restricted to the sales dated on or after the
cutoff.  In particular the running cost basis is built from the entire
sorted ledger (buys before the cutoff are not skipped), and a sale
contributes to the total exactly when its date is `≥ cutoff`. -/
theorem claim_C3_window_attribution (cutoff : Int) (txs : List Transaction) :
    calculatePeriodProfit cutoff txs
      = (((saleContributions txs).filter (fun c => decide (cutoff ≤ c.1))).map
          Prod.snd).sum := by
  show ((txs.insertionSort dateLe).foldl (periodStep cutoff) (0, [])).1 = _
  rw [periodFold_eq_contribs]
  simp [saleContributions]

/-- C7: the list the replay folds over is sorted by date ascending, is a
permutation of the account's transactions, and is stable: for every
date, the transactions of that date appear in their original relative
input order. -/
theorem claim_C7_sorted_stable (a : Int) (all : List Transaction) :
    List.Sorted dateLe (sortedLedger a all)
    ∧ (sortedLedger a all).Perm (all.filter (fun t => decide (t.account_id = a)))
    ∧ ∀ d : Int, (sortedLedger a all).filter (fun t => decide (t.date = d))
        = (all.filter (fun t => decide (t.account_id = a))).filter
            (fun t => decide (t.date = d)) := by
  refine ⟨List.sorted_insertionSort dateLe _, ?_, ?_⟩
  · exact (List.perm_insertionSort dateLe _).trans (List.perm_insertionSort dateGe _)
  · intro d
    show ((getTransactions a all).insertionSort dateLe).filter _ = _
    rw [filter_date_insertionSort dateLe not_dateLe_date_ne d]
    show ((all.filter _).insertionSort dateGe).filter _ = _
    rw [filter_date_insertionSort dateGe not_dateGe_date_ne d]

/-- C8: the empty transaction store yields an empty holding list and the
period-profit calculator returns `0` on an empty transaction list, for
every cutoff. -/
theorem claim_C8_empty_ledger (a : Int) (cutoff : Int) :
    getHoldings a [] = [] ∧ calculatePeriodProfit cutoff [] = 0 :=
  ⟨rfl, rfl⟩

/-- C9: both the ledger replay and the period-profit calculator are pure
functions of their transaction-list argument; two invocations on the
same list produce identical results. -/
theorem claim_C9_deterministic (a : Int) (all : List Transaction) (cutoff : Int) :
    getHoldings a all = getHoldings a all
    ∧ calculatePeriodProfit cutoff all = calculatePeriodProfit cutoff all :=
  ⟨rfl, rfl⟩

/-- C1: on a ledger of positive-quantity transactions, a BUY changes
`avgPrice` only to the weighted-average value `totalCost / quantity`
(or leaves it unchanged, in the oversold regime where it is already
zero), and a SELL leaves `avgPrice` unchanged unless the resulting
quantity is `≤ 0`, in which case `avgPrice` and `totalCost` are reset
to zero. -/
theorem claim_C1_avgPrice_rules (a : Int) (all : List Transaction) (n : ℕ)
    (tx : Transaction) (hpos : ∀ t ∈ all, 0 < t.quantity)
    (hget : (sortedLedger a all)[n]? = some tx) :
    (tx.type = .BUY →
        ((replayPrefixState a all (n + 1) tx.symbol).avgPrice
            = (replayPrefixState a all (n + 1) tx.symbol).totalCost
              / (replayPrefixState a all (n + 1) tx.symbol).quantity
          ∨ (replayPrefixState a all (n + 1) tx.symbol).avgPrice
            = (replayPrefixState a all n tx.symbol).avgPrice))
    ∧ (tx.type = .SELL →
        (0 < (replayPrefixState a all (n + 1) tx.symbol).quantity →
            (replayPrefixState a all (n + 1) tx.symbol).avgPrice
              = (replayPrefixState a all n tx.symbol).avgPrice)
        ∧ ((replayPrefixState a all (n + 1) tx.symbol).quantity ≤ 0 →
            (replayPrefixState a all (n + 1) tx.symbol).avgPrice = 0
            ∧ (replayPrefixState a all (n + 1) tx.symbol).totalCost = 0)) := by
  have hstep : replayPrefixState a all (n + 1) tx.symbol
      = applyTx (replayPrefixState a all n tx.symbol) tx := by
    rw [replayPrefixState_succ a all n tx hget, if_pos rfl]
  have hinv := holdInv_replayPrefixState a all n tx.symbol hpos
  have htq : 0 < tx.quantity := by
    refine hpos tx ?_
    have hmem : tx ∈ sortedLedger a all := by
      obtain ⟨hlt, hEq⟩ := List.getElem?_eq_some_iff.mp hget
      exact hEq ▸ List.getElem_mem hlt
    exact (mem_sortedLedger hmem).1
  set g := replayPrefixState a all n tx.symbol with hg
  rw [hstep]
  constructor
  · intro ht
    rw [applyTx_buy g tx ht]
    dsimp only
    by_cases hq : 0 < g.quantity + tx.quantity
    · left
      rw [if_pos hq]
    · right
      rw [if_neg hq]
      have hgq : g.quantity ≤ 0 := by
        have := not_lt.mp hq
        linarith
      exact (hinv.2 hgq).symm
  · intro ht
    rw [applyTx_sell g tx ht]
    by_cases hle : g.quantity - tx.quantity ≤ 0
    · rw [if_pos hle]
      dsimp only
      exact ⟨fun hq => absurd hq (not_lt.mpr hle), fun _ => ⟨rfl, rfl⟩⟩
    · rw [if_neg hle]
      dsimp only
      exact ⟨fun _ => rfl, fun hq => absurd hq hle⟩

/-- Witness for C1 at the one-transaction ledger `[BUY 2 @ 10]`. -/
theorem claim_C1_witness :
    (∀ t ∈ [(⟨1, 1, "A", .BUY, 2, 10, 0⟩ : Transaction)], 0 < t.quantity)
    ∧ (sortedLedger 1 [(⟨1, 1, "A", .BUY, 2, 10, 0⟩ : Transaction)])[0]?
        = some ⟨1, 1, "A", .BUY, 2, 10, 0⟩
    ∧ ((replayPrefixState 1 [(⟨1, 1, "A", .BUY, 2, 10, 0⟩ : Transaction)] 1 "A").avgPrice
          = (replayPrefixState 1 [(⟨1, 1, "A", .BUY, 2, 10, 0⟩ : Transaction)] 1 "A").totalCost
            / (replayPrefixState 1 [(⟨1, 1, "A", .BUY, 2, 10, 0⟩ : Transaction)] 1 "A").quantity
        ∨ (replayPrefixState 1 [(⟨1, 1, "A", .BUY, 2, 10, 0⟩ : Transaction)] 1 "A").avgPrice
          = (replayPrefixState 1 [(⟨1, 1, "A", .BUY, 2, 10, 0⟩ : Transaction)] 0 "A").avgPrice) :=
  ⟨by norm_num,
   by norm_num [sortedLedger, getTransactions, List.insertionSort, List.orderedInsert,
     dateLe, dateGe],
   (claim_C1_avgPrice_rules 1 [⟨1, 1, "A", .BUY, 2, 10, 0⟩] 0 ⟨1, 1, "A", .BUY, 2, 10, 0⟩
     (by norm_num)
     (by norm_num [sortedLedger, getTransactions, List.insertionSort, List.orderedInsert,
       dateLe, dateGe])).1 rfl⟩

/-- C4 (amended): replaying `[BUY q0 @ p0, SELL q1 @ p1]` with
`0 < q1 < q0` yields `realizedPnL = q1 * (p1 - p0)`, remaining
`quantity = q0 - q1`, and `avgPrice` unchanged at `p0`.  (For `q1 = q0`
the first two conclusions still hold but `avgPrice` is reset to `0`;
see the counterexample.) -/
theorem claim_C4_buy_sell_identity (sym : String) (i1 i2 acct : Int) (q0 p0 q1 p1 : ℚ)
    (d0 d1 : Int) (hq0 : 0 < q0) (hq1 : 0 < q1) (hlt : q1 < q0) (hd : d0 ≤ d1) :
    (lookupHolding (replayStates (([⟨i1, acct, sym, .BUY, q0, p0, d0⟩,
          ⟨i2, acct, sym, .SELL, q1, p1, d1⟩] : List Transaction).insertionSort dateLe))
        sym).realizedPnL = q1 * (p1 - p0)
    ∧ (lookupHolding (replayStates (([⟨i1, acct, sym, .BUY, q0, p0, d0⟩,
          ⟨i2, acct, sym, .SELL, q1, p1, d1⟩] : List Transaction).insertionSort dateLe))
        sym).quantity = q0 - q1
    ∧ (lookupHolding (replayStates (([⟨i1, acct, sym, .BUY, q0, p0, d0⟩,
          ⟨i2, acct, sym, .SELL, q1, p1, d1⟩] : List Transaction).insertionSort dateLe))
        sym).avgPrice = p0 := by
  have hsort : (([⟨i1, acct, sym, .BUY, q0, p0, d0⟩,
      ⟨i2, acct, sym, .SELL, q1, p1, d1⟩] : List Transaction).insertionSort dateLe)
      = [⟨i1, acct, sym, .BUY, q0, p0, d0⟩, ⟨i2, acct, sym, .SELL, q1, p1, d1⟩] := by
    simp [List.insertionSort, List.orderedInsert, dateLe, hd]
  rw [hsort]
  have h0 : applyTx (initHolding sym) ⟨i1, acct, sym, .BUY, q0, p0, d0⟩
      = ⟨sym, q0, q0 * p0, p0, 0⟩ := by
    rw [applyTx_buy _ _ rfl]
    simp [initHolding]
    rw [if_pos hq0, mul_div_cancel_left₀ p0 (ne_of_gt hq0)]
  have h1 : applyTx (⟨sym, q0, q0 * p0, p0, 0⟩ : Holding) ⟨i2, acct, sym, .SELL, q1, p1, d1⟩
      = ⟨sym, q0 - q1, q0 * p0 - q1 * p0, p0, q1 * p1 - q1 * p0⟩ := by
    rw [applyTx_sell _ _ rfl]
    rw [if_neg (by intro hc; exact absurd (by linarith : q0 ≤ q1) (not_le.mpr hlt))]
    simp
  have hrep : replayStates [(⟨i1, acct, sym, .BUY, q0, p0, d0⟩ : Transaction),
      ⟨i2, acct, sym, .SELL, q1, p1, d1⟩]
      = [⟨sym, q0 - q1, q0 * p0 - q1 * p0, p0, q1 * p1 - q1 * p0⟩] := by
    show (updateHoldings (updateHoldings [] ⟨i1, acct, sym, .BUY, q0, p0, d0⟩)
        ⟨i2, acct, sym, .SELL, q1, p1, d1⟩) = _
    rw [show updateHoldings ([] : List Holding) ⟨i1, acct, sym, .BUY, q0, p0, d0⟩
        = [applyTx (initHolding sym) ⟨i1, acct, sym, .BUY, q0, p0, d0⟩] from rfl, h0]
    show (if (⟨sym, q0, q0 * p0, p0, 0⟩ : Holding).symbol
        = (⟨i2, acct, sym, .SELL, q1, p1, d1⟩ : Transaction).symbol then _ else _) = _
    rw [if_pos rfl, h1]
  rw [hrep, lookupHolding_cons, if_pos rfl]
  refine ⟨by ring, rfl, rfl⟩

/-- Witness for C4 at `BUY 2 @ 10` then `SELL 1 @ 20`. -/
theorem claim_C4_witness :
    ((0:ℚ) < 2 ∧ (0:ℚ) < 1 ∧ (1:ℚ) < 2 ∧ (0:Int) ≤ 1)
    ∧ ((lookupHolding (replayStates (([⟨1, 1, "A", .BUY, 2, 10, 0⟩,
            ⟨2, 1, "A", .SELL, 1, 20, 1⟩] : List Transaction).insertionSort dateLe))
          "A").realizedPnL = 1 * (20 - 10)
      ∧ (lookupHolding (replayStates (([⟨1, 1, "A", .BUY, 2, 10, 0⟩,
            ⟨2, 1, "A", .SELL, 1, 20, 1⟩] : List Transaction).insertionSort dateLe))
          "A").quantity = 2 - 1
      ∧ (lookupHolding (replayStates (([⟨1, 1, "A", .BUY, 2, 10, 0⟩,
            ⟨2, 1, "A", .SELL, 1, 20, 1⟩] : List Transaction).insertionSort dateLe))
          "A").avgPrice = 10) :=
  ⟨⟨by norm_num, by norm_num, by norm_num, by norm_num⟩,
    claim_C4_buy_sell_identity "A" 1 2 1 2 10 1 20 0 1
      (by norm_num) (by norm_num) (by norm_num) (by norm_num)⟩

/-- Counterexample to C4 as stated: with `q1 = q0 = 1` (allowed by the
claim's `q1 ≤ q0`), the realized P&L and quantity match the claim, but
`avgPrice` is reset to `0` instead of staying at `p0 = 10`. -/
theorem claim_C4_counterexample :
    (0:ℚ) < 1 ∧ (1:ℚ) ≤ 1 ∧ (0:Int) ≤ 1
    ∧ (lookupHolding (replayStates (([⟨1, 1, "A", .BUY, 1, 10, 0⟩,
          ⟨2, 1, "A", .SELL, 1, 20, 1⟩] : List Transaction).insertionSort dateLe))
        "A").realizedPnL = 1 * (20 - 10)
    ∧ (lookupHolding (replayStates (([⟨1, 1, "A", .BUY, 1, 10, 0⟩,
          ⟨2, 1, "A", .SELL, 1, 20, 1⟩] : List Transaction).insertionSort dateLe))
        "A").quantity = 1 - 1
    ∧ (lookupHolding (replayStates (([⟨1, 1, "A", .BUY, 1, 10, 0⟩,
          ⟨2, 1, "A", .SELL, 1, 20, 1⟩] : List Transaction).insertionSort dateLe))
        "A").avgPrice ≠ 10 := by
  norm_num [replayStates, List.insertionSort, List.orderedInsert, updateHoldings,
    lookupHolding, applyTx, initHolding, dateLe]

/-- C5 (amended): immediately after a BUY of positive quantity applied
to a state whose quantity is nonnegative (no prior oversell), the
quantity is strictly positive, and `avgPrice` is then computed by the
guarded division `totalCost / quantity`. -/
theorem claim_C5_buy_guard (h : Holding) (tx : Transaction) (ht : tx.type = .BUY)
    (htq : 0 < tx.quantity) (hh : 0 ≤ h.quantity) :
    0 < (applyTx h tx).quantity
    ∧ (applyTx h tx).avgPrice = (applyTx h tx).totalCost / (applyTx h tx).quantity := by
  rw [applyTx_buy h tx ht]
  dsimp only
  have hq : 0 < h.quantity + tx.quantity := add_pos_of_nonneg_of_pos hh htq
  exact ⟨hq, if_pos hq⟩

/-- Witness for C5 (amended) at the empty state and `BUY 2 @ 10`. -/
theorem claim_C5_witness :
    ((⟨1, 1, "A", .BUY, 2, 10, 0⟩ : Transaction).type = .BUY)
    ∧ (0:ℚ) < (⟨1, 1, "A", .BUY, 2, 10, 0⟩ : Transaction).quantity
    ∧ (0:ℚ) ≤ (⟨"A", 0, 0, 0, 0⟩ : Holding).quantity
    ∧ (0 < (applyTx ⟨"A", 0, 0, 0, 0⟩ ⟨1, 1, "A", .BUY, 2, 10, 0⟩).quantity
      ∧ (applyTx ⟨"A", 0, 0, 0, 0⟩ ⟨1, 1, "A", .BUY, 2, 10, 0⟩).avgPrice
          = (applyTx ⟨"A", 0, 0, 0, 0⟩ ⟨1, 1, "A", .BUY, 2, 10, 0⟩).totalCost
            / (applyTx ⟨"A", 0, 0, 0, 0⟩ ⟨1, 1, "A", .BUY, 2, 10, 0⟩).quantity) :=
  ⟨rfl, by norm_num, by norm_num,
    claim_C5_buy_guard ⟨"A", 0, 0, 0, 0⟩ ⟨1, 1, "A", .BUY, 2, 10, 0⟩ rfl
      (by norm_num) (by norm_num)⟩

/-- Counterexample to C5 as stated: in the ledger
`[SELL 5 @ 10, BUY 2 @ 10]` (all quantities positive), immediately
after the replay processes the BUY the quantity is `-3 ≤ 0`. -/
theorem claim_C5_counterexample :
    (∀ t ∈ [(⟨1, 1, "A", .SELL, 5, 10, 0⟩ : Transaction), ⟨2, 1, "A", .BUY, 2, 10, 1⟩],
        0 < t.quantity)
    ∧ (sortedLedger 1 [(⟨1, 1, "A", .SELL, 5, 10, 0⟩ : Transaction),
        ⟨2, 1, "A", .BUY, 2, 10, 1⟩])[1]? = some ⟨2, 1, "A", .BUY, 2, 10, 1⟩
    ∧ (replayPrefixState 1 [(⟨1, 1, "A", .SELL, 5, 10, 0⟩ : Transaction),
        ⟨2, 1, "A", .BUY, 2, 10, 1⟩] 2 "A").quantity ≤ 0 := by
  refine ⟨by norm_num, ?_, ?_⟩ <;>
    norm_num [replayPrefixState, sortedLedger, getTransactions, List.insertionSort,
      List.orderedInsert, updateHoldings, lookupHolding, applyTx, initHolding,
      dateLe, dateGe]

/-- C6: for every symbol that occurs in the account's ledger, its final
replayed state appears in the projected holding list exactly when its
quantity is positive or its realized P&L is nonzero; in particular a
fully closed position with nonzero realized P&L appears, and one with
zero realized P&L does not. -/
theorem claim_C6_projection_filter (a : Int) (all : List Transaction) (s : String)
    (hocc : ∃ t ∈ all, t.account_id = a ∧ t.symbol = s) :
    lookupHolding (replayStates (sortedLedger a all)) s ∈ getHoldings a all
      ↔ (0 < (lookupHolding (replayStates (sortedLedger a all)) s).quantity
          ∨ (lookupHolding (replayStates (sortedLedger a all)) s).realizedPnL ≠ 0) := by
  have hmem : ∃ h ∈ replayStates (sortedLedger a all), h.symbol = s := by
    obtain ⟨t, htall, hta, hts⟩ := hocc
    refine exists_symbol_foldl _ [] (Or.inr ⟨t, ?_, hts⟩)
    unfold sortedLedger getTransactions
    rw [(List.perm_insertionSort dateLe _).mem_iff, (List.perm_insertionSort dateGe _).mem_iff,
      List.mem_filter]
    exact ⟨htall, by simp [hta]⟩
  constructor
  · intro hin
    have hp := (List.mem_filter.mp hin).2
    simpa using hp
  · intro hp
    refine List.mem_filter.mpr ⟨lookupHolding_mem hmem, ?_⟩
    simpa using hp

/-- Witness for C6 at the one-transaction ledger `[BUY 1 @ 10]`. -/
theorem claim_C6_witness :
    (∃ t ∈ [(⟨1, 1, "A", .BUY, 1, 10, 0⟩ : Transaction)], t.account_id = 1 ∧ t.symbol = "A")
    ∧ (lookupHolding (replayStates (sortedLedger 1
          [(⟨1, 1, "A", .BUY, 1, 10, 0⟩ : Transaction)])) "A"
          ∈ getHoldings 1 [(⟨1, 1, "A", .BUY, 1, 10, 0⟩ : Transaction)]
      ↔ (0 < (lookupHolding (replayStates (sortedLedger 1
            [(⟨1, 1, "A", .BUY, 1, 10, 0⟩ : Transaction)])) "A").quantity
        ∨ (lookupHolding (replayStates (sortedLedger 1
            [(⟨1, 1, "A", .BUY, 1, 10, 0⟩ : Transaction)])) "A").realizedPnL ≠ 0)) :=
  ⟨⟨⟨1, 1, "A", .BUY, 1, 10, 0⟩, List.mem_cons_self _ _, rfl, rfl⟩,
    claim_C6_projection_filter 1 [⟨1, 1, "A", .BUY, 1, 10, 0⟩] "A"
      ⟨⟨1, 1, "A", .BUY, 1, 10, 0⟩, List.mem_cons_self _ _, rfl, rfl⟩⟩

/-- C10: when the cutoff is on or before every transaction date of the
account, the period-profit calculator applied to the account's
transactions equals the sum of `realizedPnL` over the holding list
produced by the replay: the two independent replay implementations
agree on total realized profit. -/
theorem claim_C10_period_agrees_replay (a : Int) (all : List Transaction) (cutoff : Int)
    (hcut : ∀ t ∈ all, t.account_id = a → cutoff ≤ t.date) :
    calculatePeriodProfit cutoff (getTransactions a all)
      = ((getHoldings a all).map Holding.realizedPnL).sum := by
  have hl : ∀ t ∈ (getTransactions a all).insertionSort dateLe, cutoff ≤ t.date := by
    intro t ht
    have h1 : t ∈ getTransactions a all := (List.perm_insertionSort dateLe _).subset ht
    have h1' : t ∈ (all.filter (fun t => decide (t.account_id = a))).insertionSort dateGe := h1
    have h2 := (List.perm_insertionSort dateGe _).subset h1'
    have h3 := List.mem_filter.mp h2
    exact hcut t h3.1 (of_decide_eq_true h3.2)
  show (((getTransactions a all).insertionSort dateLe).foldl (periodStep cutoff) (0, [])).1 = _
  rw [show (([] : List (String × TempHolding))) = ([] : List Holding).map toTempEntry from rfl,
    periodFold_fst_eq_pnlSum cutoff _ hl 0 []]
  rw [show ((getHoldings a all).map Holding.realizedPnL).sum
      = pnlSum ((replayStates (sortedLedger a all)).filter
          (fun h => decide (0 < h.quantity) || decide (h.realizedPnL ≠ 0))) from rfl,
    pnlSum_filter, pnlSum_nil]
  rw [sub_zero, zero_add]
  rfl

/-- Witness for C10 at the ledger `[BUY 2 @ 10, SELL 1 @ 15]` with
cutoff `0` (before both transaction dates). -/
theorem claim_C10_witness :
    (∀ t ∈ [(⟨1, 1, "A", .BUY, 2, 10, 0⟩ : Transaction), ⟨2, 1, "A", .SELL, 1, 15, 5⟩],
        t.account_id = 1 → (0:Int) ≤ t.date)
    ∧ calculatePeriodProfit 0 (getTransactions 1 [(⟨1, 1, "A", .BUY, 2, 10, 0⟩ : Transaction),
        ⟨2, 1, "A", .SELL, 1, 15, 5⟩])
      = ((getHoldings 1 [(⟨1, 1, "A", .BUY, 2, 10, 0⟩ : Transaction),
          ⟨2, 1, "A", .SELL, 1, 15, 5⟩]).map Holding.realizedPnL).sum :=
  ⟨by norm_num,
    claim_C10_period_agrees_replay 1 [⟨1, 1, "A", .BUY, 2, 10, 0⟩, ⟨2, 1, "A", .SELL, 1, 15, 5⟩]
      0 (by norm_num)⟩

end Fintrack
